import Mathlib

/-!
Verification of the conversation-context manager and the streaming
response aggregation protocol of the slack-supabase bot.

The definitions below are a shallow embedding of:
  * `src/ai/context/manager.ts` (`ContextManager`): bounded, TTL-expiring
    registry of conversation contexts;
  * `src/slack/events/index.ts` (`processMessageAndGenerateResponse`):
    the streaming event loop that aggregates agent events into throttled
    Slack message updates.

JavaScript `Map` objects are modelled as association lists in insertion
order (`Map.set` replaces the value of an existing key in place, otherwise
appends; iteration follows insertion order).  Timestamps (`Date`) are
modelled as natural numbers of milliseconds.  Slack and Block-Kit payload
rendering is treated as an opaque collaborator: a Slack call records the
content string and metadata handed to the renderer.  Display texts are
abbreviated where their exact wording is irrelevant.
-/

namespace SlackSupabase

/-- Message roles, from `src/ai/interfaces/provider.ts` (`MessageRole`). -/
inductive Role
  | system
  | user
  | assistant
  deriving DecidableEq, Repr

/-- `ConversationMessage` (content abstracted to its string payload). -/
structure Msg where
  role : Role
  content : String
  deriving DecidableEq, Repr

instance : Inhabited Msg := ⟨⟨Role.system, ""⟩⟩

/-- `createSystemMessage` from `src/ai/openrouter/formatter.ts`. -/
def createSystemMessage (instructions : String) : Msg :=
  ⟨Role.system, instructions⟩

/-- `DEFAULT_SYSTEM_MESSAGE` from `src/ai/openrouter/formatter.ts`
(content abbreviated). -/
def DEFAULT_SYSTEM_MESSAGE : Msg :=
  createSystemMessage "You are an AI assistant in a Slack workspace."

/-- `createUserMessage` from `src/slack/utils/conversation.ts`. -/
def userMessage (content : String) : Msg := ⟨Role.user, content⟩

/-- `createAssistantMessage` from `src/slack/utils/conversation.ts`. -/
def assistantMessage (content : String) : Msg := ⟨Role.assistant, content⟩

/-- `ConversationContext` from `src/ai/context/manager.ts`. -/
structure Ctx where
  threadId : String
  channelId : String
  userId : Option String
  messages : List Msg
  lastUpdated : Nat
  deriving DecidableEq, Repr

/-- The constructor parameters of `ContextManager` (TTL already converted
to milliseconds, as the constructor does). -/
structure Config where
  maxContexts : Nat
  maxMessagesPerContext : Nat
  contextTtlMs : Nat
  deriving DecidableEq, Repr

/-- The `ContextManager` constructor: `contextTtlMs = contextTtlHours * 60 * 60 * 1000`. -/
def mkConfig (maxContexts maxMessagesPerContext contextTtlHours : Nat) : Config :=
  ⟨maxContexts, maxMessagesPerContext, contextTtlHours * 60 * 60 * 1000⟩

/-- The interval passed to `setInterval` in the constructor:
`this.contextTtlMs / 2`. -/
def cleanupIntervalMs (cfg : Config) : Nat := cfg.contextTtlMs / 2

/-- The `contexts : Map<string, ConversationContext>` field, as an
insertion-ordered association list. -/
abbrev CtxMap := List (String × Ctx)

/-- `Map.get`. -/
def mget : CtxMap → String → Option Ctx
  | [], _ => none
  | (k', c) :: t, k => if k' = k then some c else mget t k

/-- `Map.set`: replace in place if the key is present, else append. -/
def mset : CtxMap → String → Ctx → CtxMap
  | [], k, v => [(k, v)]
  | (k', c) :: t, k, v => if k' = k then (k, v) :: t else (k', c) :: mset t k v

/-- `Map.delete`: remove the entry with the given key (the first match). -/
def mdel : CtxMap → String → CtxMap
  | [], _ => []
  | (k', c) :: t, k => if k' = k then t else (k', c) :: mdel t k

/-- `Map.size`. -/
def msize (m : CtxMap) : Nat := m.length

/-- `getAllContexts` (`Array.from(this.contexts.values())`). -/
def getAllContexts (m : CtxMap) : List Ctx := m.map Prod.snd

/-- `getContextKey`: `` `${channelId}:${threadId}` ``. -/
def getContextKey (threadId channelId : String) : String :=
  channelId ++ ":" ++ threadId

/-- `getContext`. -/
def getContext (m : CtxMap) (threadId channelId : String) : Option Ctx :=
  mget m (getContextKey threadId channelId)

/-- One comparison step of the `evictOldestContext` scan: the current
entry replaces the candidate iff its `lastUpdated` is strictly smaller
(`context.lastUpdated < oldestDate`). -/
def olderOf (best cur : String × Ctx) : String × Ctx :=
  if cur.2.lastUpdated < best.2.lastUpdated then cur else best

/-- The scan of `evictOldestContext` over the entries in insertion order
(the first entry seeds the candidate, since `oldestDate === null` there). -/
def oldestEntry : CtxMap → Option (String × Ctx)
  | [] => none
  | e :: rest => some (rest.foldl olderOf e)

/-- `evictOldestContext`: delete the first entry attaining the minimal
`lastUpdated` (the trailing `if (oldestKey)` guard is falsy for the empty
string key, which `getContextKey` can never produce). -/
def evictOldestContext (m : CtxMap) : CtxMap :=
  match oldestEntry m with
  | none => m
  | some (k, _) => if k = "" then m else mdel m k

/-- `createContext`: evict eagerly when `size >= maxContexts`, then store
a fresh context seeded with the single system message. -/
def createContext (cfg : Config) (m : CtxMap) (threadId channelId : String)
    (userId : Option String) (systemMessage : Msg) (now : Nat) : CtxMap :=
  let m1 := if cfg.maxContexts ≤ msize m then evictOldestContext m else m
  mset m1 (getContextKey threadId channelId)
    { threadId := threadId, channelId := channelId, userId := userId
      messages := [systemMessage], lastUpdated := now }

/-- `getOrCreateContext` (state effect only: returns the map unchanged
when the key is present). -/
def getOrCreateContext (cfg : Config) (m : CtxMap) (threadId channelId : String)
    (userId : Option String) (now : Nat) : CtxMap :=
  match getContext m threadId channelId with
  | some _ => m
  | none => createContext cfg m threadId channelId userId DEFAULT_SYSTEM_MESSAGE now

/-- One-argument `Array.prototype.slice` with a possibly negative start
index: `slice(s)` keeps the elements from index `max(len + s, 0)` on when
`s < 0`, and from `min(s, len)` on otherwise (in particular `slice(-0)`
is `slice(0)`, the whole array). -/
def jsSliceFrom (l : List Msg) (start : Int) : List Msg :=
  if start < 0 then l.drop (l.length - (-start).toNat)
  else l.drop start.toNat

/-- The message-list transformation of `addMessage`: push, then if
`length > maxMessagesPerContext` keep `messages[0]` followed by
`messages.slice(-(maxMessagesPerContext - 1))`. -/
def addMessageList (maxMsgs : Nat) (msgs : List Msg) (message : Msg) : List Msg :=
  let pushed := msgs ++ [message]
  if maxMsgs < pushed.length then
    pushed.headI :: jsSliceFrom pushed (-((maxMsgs : Int) - 1))
  else pushed

/-- `addMessage`: get-or-create the context, push the message with
trimming, refresh `lastUpdated`, store back. -/
def addMessage (cfg : Config) (m : CtxMap) (threadId channelId : String)
    (message : Msg) (now : Nat) : CtxMap :=
  let m1 := getOrCreateContext cfg m threadId channelId none now
  let key := getContextKey threadId channelId
  match mget m1 key with
  | none => m1
  | some c =>
      mset m1 key
        { c with messages := addMessageList cfg.maxMessagesPerContext c.messages message
                 lastUpdated := now }

/-- The message-list transformation of `updateSystemMessage`: replace
`messages[0]` when it exists and has role `system`, else `unshift` a new
system message. -/
def updateSystemMessageList (msgs : List Msg) (text : String) : List Msg :=
  match msgs with
  | [] => [createSystemMessage text]
  | m0 :: rest =>
      if m0.role = Role.system then createSystemMessage text :: rest
      else createSystemMessage text :: m0 :: rest

/-- `updateSystemMessage`. -/
def updateSystemMessage (cfg : Config) (m : CtxMap) (threadId channelId : String)
    (text : String) (now : Nat) : CtxMap :=
  let m1 := getOrCreateContext cfg m threadId channelId none now
  let key := getContextKey threadId channelId
  match mget m1 key with
  | none => m1
  | some c =>
      mset m1 key
        { c with messages := updateSystemMessageList c.messages text
                 lastUpdated := now }

/-- `cleanupExpiredContexts`: delete every context whose
`now - lastUpdated > contextTtlMs`. -/
def cleanupExpiredContexts (cfg : Config) (m : CtxMap) (now : Nat) : CtxMap :=
  m.filter (fun e => decide (now - e.2.lastUpdated ≤ cfg.contextTtlMs))

end SlackSupabase

namespace SlackSupabase

/-! ### Association-list (JS `Map`) lemmas -/

theorem mget_mset_self (m : CtxMap) (k : String) (v : Ctx) :
    mget (mset m k v) k = some v := by
  induction m with
  | nil => simp [mset, mget]
  | cons e t ih =>
      obtain ⟨k', c⟩ := e
      by_cases h : k' = k
      · simp [mset, h, mget]
      · simp [mset, h, mget, ih]

theorem mget_mset_ne (m : CtxMap) (k k' : String) (v : Ctx) (h : k ≠ k') :
    mget (mset m k v) k' = mget m k' := by
  induction m with
  | nil => simp [mset, mget, h]
  | cons e t ih =>
      obtain ⟨k'', c⟩ := e
      by_cases hk : k'' = k
      · subst hk
        simp [mset, mget, h]
      · simp [mset, hk, mget, ih]

theorem length_mset (m : CtxMap) (k : String) (v : Ctx) :
    (mset m k v).length = if (mget m k).isSome then m.length else m.length + 1 := by
  induction m with
  | nil => simp [mset, mget]
  | cons e t ih =>
      obtain ⟨k', c⟩ := e
      by_cases h : k' = k
      · simp [mset, h, mget]
      · simp only [mset, h, if_false, mget, List.length_cons, ih]
        by_cases hs : (mget t k).isSome <;> simp [hs, h]

theorem length_mdel_of_isSome (m : CtxMap) (k : String)
    (h : (mget m k).isSome) : (mdel m k).length + 1 = m.length := by
  induction m with
  | nil => simp [mget] at h
  | cons e t ih =>
      obtain ⟨k', c⟩ := e
      by_cases hk : k' = k
      · simp [mdel, hk]
      · simp only [mget, hk, if_false] at h
        simp [mdel, hk, ih h]

theorem mget_mdel_ne (m : CtxMap) (k k' : String) (h : k ≠ k') :
    mget (mdel m k) k' = mget m k' := by
  induction m with
  | nil => simp [mdel]
  | cons e t ih =>
      obtain ⟨k'', c⟩ := e
      by_cases hk : k'' = k
      · subst hk
        simp [mdel, mget, h]
      · simp [mdel, hk, mget, ih]

theorem mget_eq_none_of_not_mem_keys (m : CtxMap) (k : String)
    (h : k ∉ m.map Prod.fst) : mget m k = none := by
  induction m with
  | nil => simp [mget]
  | cons e t ih =>
      obtain ⟨k', c⟩ := e
      simp only [List.map_cons, List.mem_cons, not_or] at h
      have hne : k' ≠ k := fun hh => h.1 hh.symm
      simp [mget, hne, ih h.2]

theorem mget_mdel_self (m : CtxMap) (k : String)
    (h : (m.map Prod.fst).Nodup) : mget (mdel m k) k = none := by
  induction m with
  | nil => simp [mdel, mget]
  | cons e t ih =>
      obtain ⟨k', c⟩ := e
      simp only [List.map_cons, List.nodup_cons] at h
      by_cases hk : k' = k
      · subst hk
        simp only [mdel, if_pos rfl]
        exact mget_eq_none_of_not_mem_keys t k' h.1
      · simp [mdel, hk, mget, ih h.2]

theorem mem_of_mget (m : CtxMap) (k : String) (c : Ctx)
    (h : mget m k = some c) : (k, c) ∈ m := by
  induction m with
  | nil => simp [mget] at h
  | cons e t ih =>
      obtain ⟨k', c'⟩ := e
      simp only [mget] at h
      split at h
      · rename_i heq
        injection h with h2
        subst h2
        subst heq
        exact List.mem_cons_self _ _
      · exact List.mem_cons_of_mem _ (ih h)

theorem mget_isSome_of_mem (m : CtxMap) (k : String) (c : Ctx)
    (h : (k, c) ∈ m) : (mget m k).isSome := by
  induction m with
  | nil => simp at h
  | cons e t ih =>
      obtain ⟨k', c'⟩ := e
      rcases List.mem_cons.mp h with h1 | h2
      · cases h1
        simp [mget]
      · by_cases hk : k' = k
        · simp [mget, hk]
        · simp only [mget, hk, if_false]
          exact ih h2

theorem mem_mdel (m : CtxMap) (k : String) (e : String × Ctx)
    (h : e ∈ mdel m k) : e ∈ m := by
  induction m with
  | nil => simp [mdel] at h
  | cons e' t ih =>
      obtain ⟨k', c⟩ := e'
      by_cases hk : k' = k
      · simp only [mdel, if_pos hk] at h
        exact List.mem_cons_of_mem _ h
      · simp only [mdel, hk, if_false, List.mem_cons] at h
        rcases h with h1 | h2
        · exact h1 ▸ List.mem_cons_self _ _
        · exact List.mem_cons_of_mem _ (ih h2)

theorem mem_mset (m : CtxMap) (k : String) (v : Ctx) (e : String × Ctx)
    (h : e ∈ mset m k v) : e = (k, v) ∨ e ∈ m := by
  induction m with
  | nil => simpa [mset] using h
  | cons e' t ih =>
      obtain ⟨k', c⟩ := e'
      by_cases hk : k' = k
      · simp only [mset, if_pos hk, List.mem_cons] at h
        rcases h with h1 | h2
        · exact Or.inl h1
        · exact Or.inr (List.mem_cons_of_mem _ h2)
      · simp only [mset, hk, if_false, List.mem_cons] at h
        rcases h with h1 | h2
        · exact Or.inr (h1 ▸ List.mem_cons_self _ _)
        · rcases ih h2 with h3 | h4
          · exact Or.inl h3
          · exact Or.inr (List.mem_cons_of_mem _ h4)

end SlackSupabase

namespace SlackSupabase

/-! ### Lemmas about the oldest-entry scan -/

theorem olderOf_lastUpdated_le_left (b c : String × Ctx) :
    (olderOf b c).2.lastUpdated ≤ b.2.lastUpdated := by
  unfold olderOf
  split
  · omega
  · exact le_refl _

theorem olderOf_lastUpdated_le_right (b c : String × Ctx) :
    (olderOf b c).2.lastUpdated ≤ c.2.lastUpdated := by
  unfold olderOf
  split
  · exact le_refl _
  · omega

theorem olderOf_eq_or (b c : String × Ctx) : olderOf b c = b ∨ olderOf b c = c := by
  unfold olderOf
  split
  · exact Or.inr rfl
  · exact Or.inl rfl

theorem foldl_olderOf_mem (rest : CtxMap) :
    ∀ e : String × Ctx, rest.foldl olderOf e ∈ e :: rest := by
  induction rest with
  | nil => intro e; simp
  | cons r t ih =>
      intro e
      have h1 := ih (olderOf e r)
      rcases olderOf_eq_or e r with h2 | h2 <;>
        · rw [h2] at h1
          simp only [List.foldl_cons]
          rw [h2]
          rcases List.mem_cons.mp h1 with h3 | h3 <;> simp [h3]

theorem foldl_olderOf_min (rest : CtxMap) :
    ∀ e x : String × Ctx, x ∈ e :: rest →
      (rest.foldl olderOf e).2.lastUpdated ≤ x.2.lastUpdated := by
  induction rest with
  | nil =>
      intro e x hx
      simp only [List.mem_singleton] at hx
      subst hx
      simp
  | cons r t ih =>
      intro e x hx
      simp only [List.foldl_cons]
      rcases List.mem_cons.mp hx with h1 | h1
      · subst h1
        exact le_trans (ih (olderOf x r) (olderOf x r) (List.mem_cons_self _ _))
          (olderOf_lastUpdated_le_left x r)
      · rcases List.mem_cons.mp h1 with h2 | h2
        · subst h2
          exact le_trans (ih (olderOf e x) (olderOf e x) (List.mem_cons_self _ _))
            (olderOf_lastUpdated_le_right e x)
        · exact ih (olderOf e r) x (List.mem_cons_of_mem _ h2)

theorem oldestEntry_mem (m : CtxMap) (e : String × Ctx)
    (h : oldestEntry m = some e) : e ∈ m := by
  cases m with
  | nil => simp [oldestEntry] at h
  | cons e0 rest =>
      simp only [oldestEntry, Option.some.injEq] at h
      subst h
      exact foldl_olderOf_mem rest e0

theorem oldestEntry_min (m : CtxMap) (e : String × Ctx)
    (h : oldestEntry m = some e) :
    ∀ x ∈ m, e.2.lastUpdated ≤ x.2.lastUpdated := by
  cases m with
  | nil => simp [oldestEntry] at h
  | cons e0 rest =>
      simp only [oldestEntry, Option.some.injEq] at h
      subst h
      exact fun x hx => foldl_olderOf_min rest e0 x hx

theorem oldestEntry_isSome (m : CtxMap) (h : m ≠ []) :
    ∃ e, oldestEntry m = some e := by
  cases m with
  | nil => exact absurd rfl h
  | cons e0 rest => exact ⟨rest.foldl olderOf e0, rfl⟩

end SlackSupabase

namespace SlackSupabase

/-! ### Claim C1: message-list trimming in `addMessage` -/

/-- The most recent `n` elements of a list (`slice(-n)` for `1 ≤ n ≤ len`). -/
def lastN (l : List Msg) (n : Nat) : List Msg := l.drop (l.length - n)

theorem addMessageList_spec (maxMsgs : Nat) (hmax : 2 ≤ maxMsgs)
    (msgs : List Msg) (message : Msg) :
    (addMessageList maxMsgs msgs message).length ≤ maxMsgs ∧
    (maxMsgs < msgs.length + 1 →
      addMessageList maxMsgs msgs message =
        msgs.headI :: lastN (msgs ++ [message]) (maxMsgs - 1)) := by
  have hlen : (msgs ++ [message]).length = msgs.length + 1 := by simp
  have hneg : -((maxMsgs : Int) - 1) < 0 := by omega
  have htn : (-(-((maxMsgs : Int) - 1))).toNat = maxMsgs - 1 := by omega
  constructor
  · unfold addMessageList
    by_cases h : maxMsgs < (msgs ++ [message]).length
    · simp only [if_pos h, List.length_cons]
      unfold jsSliceFrom
      rw [if_pos hneg, htn]
      simp only [List.length_drop]
      omega
    · simp only [if_neg h]
      omega
  · intro hgt
    have h : maxMsgs < (msgs ++ [message]).length := by omega
    unfold addMessageList
    rw [if_pos h]
    unfold jsSliceFrom
    rw [if_pos hneg, htn]
    have hmsgs : msgs ≠ [] := by
      intro hnil
      rw [hnil] at hgt
      simp at hgt
      omega
    cases msgs with
    | nil => exact absurd rfl hmsgs
    | cons a l => simp [lastN, List.headI]

/-- **C1, counterexample.**  The claim asserts `messages.length <=
maxMessagesPerContext` after every `addMessage` call.  With
`maxMessagesPerContext = 1`, a context holding only the system message
`S0`, and one appended user message, the JS trimming code computes
`messages.slice(-(1 - 1)) = messages.slice(0)` — the whole pushed array —
so the stored list becomes `[S0, S0, U1]` of length `3 > 1`, and it is
not `[S0]` (the index-0 element followed by the most recent
`maxMessagesPerContext - 1 = 0` messages) either. -/
theorem C1_counterexample :
    (mget (addMessage (mkConfig 1000 1 24)
        [(getContextKey "t" "c", ⟨"t", "c", none, [⟨Role.system, "S0"⟩], 0⟩)]
        "t" "c" ⟨Role.user, "U1"⟩ 5) (getContextKey "t" "c")).map Ctx.messages =
      some [⟨Role.system, "S0"⟩, ⟨Role.system, "S0"⟩, ⟨Role.user, "U1"⟩] ∧
    ¬ ((3 : Nat) ≤ (mkConfig 1000 1 24).maxMessagesPerContext) := by
  constructor
  · decide
  · decide

/-- **C1 (amended).**  For `maxMessagesPerContext ≥ 2`: after any
`addMessage` call on an existing context, `messages.length ≤
maxMessagesPerContext`; whenever the append makes the length exceed the
bound, the stored list equals the element previously at index 0 followed
by the most recent `maxMessagesPerContext - 1` messages, and the index-0
element is preserved verbatim regardless of its role.  (The original
claim fails for `maxMessagesPerContext ≤ 1`, where `slice(-(max-1))`
does not drop the old messages.) -/
theorem C1_addMessage_trim (cfg : Config) (hmax : 2 ≤ cfg.maxMessagesPerContext)
    (m : CtxMap) (tid cid : String) (message : Msg) (now : Nat) (c : Ctx)
    (hget : mget m (getContextKey tid cid) = some c) :
    ∃ c', mget (addMessage cfg m tid cid message now) (getContextKey tid cid) = some c' ∧
      c'.messages.length ≤ cfg.maxMessagesPerContext ∧
      c'.messages = addMessageList cfg.maxMessagesPerContext c.messages message ∧
      (cfg.maxMessagesPerContext < c.messages.length + 1 →
        c'.messages = c.messages.headI ::
          lastN (c.messages ++ [message]) (cfg.maxMessagesPerContext - 1) ∧
        c'.messages.headI = c.messages.headI) := by
  have hm1 : getOrCreateContext cfg m tid cid none now = m := by
    unfold getOrCreateContext getContext
    rw [hget]
  have heq : addMessage cfg m tid cid message now =
      mset m (getContextKey tid cid)
        { c with messages := addMessageList cfg.maxMessagesPerContext c.messages message
                 lastUpdated := now } := by
    unfold addMessage
    rw [hm1]
    simp only [hget]
  rw [heq]
  refine ⟨_, mget_mset_self _ _ _, ?_, rfl, ?_⟩
  · exact (addMessageList_spec _ hmax c.messages message).1
  · intro hgt
    have hspec := (addMessageList_spec _ hmax c.messages message).2 hgt
    constructor
    · exact hspec
    · rw [hspec]
      simp [List.headI]

end SlackSupabase

namespace SlackSupabase

def msgS0 : Msg := ⟨Role.system, "S0"⟩
def msgU1 : Msg := ⟨Role.user, "U1"⟩
def msgA1 : Msg := ⟨Role.assistant, "A1"⟩
def msgU2 : Msg := ⟨Role.user, "U2"⟩
def msgA2 : Msg := ⟨Role.assistant, "A2"⟩
def cfgC1 : Config := mkConfig 1000 3 24
def keyTC : String := getContextKey "t" "c"
def ctxC1 : Ctx := ⟨"t", "c", none, [msgS0, msgU1, msgA1], 0⟩

theorem C1_addMessage_trim_witness :
    ((2 ≤ cfgC1.maxMessagesPerContext) ∧
      ∃ c', mget (addMessage cfgC1 [(keyTC, ctxC1)] "t" "c" msgU2 5) (getContextKey "t" "c") =
          some c' ∧
        c'.messages.length ≤ cfgC1.maxMessagesPerContext ∧
        c'.messages = addMessageList cfgC1.maxMessagesPerContext ctxC1.messages msgU2 ∧
        (cfgC1.maxMessagesPerContext < ctxC1.messages.length + 1 →
          c'.messages = ctxC1.messages.headI ::
            lastN (ctxC1.messages ++ [msgU2]) (cfgC1.maxMessagesPerContext - 1) ∧
          c'.messages.headI = ctxC1.messages.headI)) ∧
    (mget (addMessage cfgC1 (addMessage cfgC1 (addMessage cfgC1 (addMessage cfgC1
        [(keyTC, ⟨"t", "c", none, [msgS0], 0⟩)] "t" "c" msgU1 1) "t" "c" msgA1 2)
        "t" "c" msgU2 3) "t" "c" msgA2 4) keyTC).map Ctx.messages =
      some [msgS0, msgU2, msgA2] :=
  ⟨⟨by decide, C1_addMessage_trim cfgC1 (by decide) [(keyTC, ctxC1)] "t" "c" msgU2 5 ctxC1
      (by decide)⟩, by decide⟩

/-! ### Claim C2: capacity invariant of `createContext` -/

theorem getContextKey_ne_empty (tid cid : String) : getContextKey tid cid ≠ "" := by
  intro h
  have h2 : (getContextKey tid cid).length = 0 := by rw [h]; rfl
  unfold getContextKey at h2
  rw [String.length_append, String.length_append] at h2
  have h3 : (":" : String).length = 1 := rfl
  omega

theorem mem_keys_mset (m : CtxMap) (k : String) (v : Ctx) (a : String)
    (h : a ∈ (mset m k v).map Prod.fst) : a ∈ m.map Prod.fst ∨ a = k := by
  simp only [List.mem_map] at h
  obtain ⟨e, he, hfst⟩ := h
  rcases mem_mset m k v e he with h1 | h1
  · right
    rw [← hfst, h1]
  · left
    exact hfst ▸ List.mem_map_of_mem Prod.fst h1

theorem nodup_keys_mset (m : CtxMap) (k : String) (v : Ctx)
    (h : (m.map Prod.fst).Nodup) : ((mset m k v).map Prod.fst).Nodup := by
  induction m with
  | nil => simp [mset]
  | cons e t ih =>
      obtain ⟨k', c⟩ := e
      simp only [List.map_cons, List.nodup_cons] at h
      by_cases hkk : k' = k
      · subst hkk
        have hrw : mset ((k', c) :: t) k' v = (k', v) :: t := by simp [mset]
        rw [hrw]
        simp only [List.map_cons, List.nodup_cons]
        exact h
      · simp only [mset, hkk, if_false, List.map_cons, List.nodup_cons]
        refine ⟨fun hmem => ?_, ih h.2⟩
        rcases mem_keys_mset t k v k' hmem with h1 | h1
        · exact h.1 h1
        · exact hkk h1

theorem keys_mdel_sublist (m : CtxMap) (k : String) :
    ((mdel m k).map Prod.fst).Sublist (m.map Prod.fst) := by
  induction m with
  | nil => simp [mdel]
  | cons e t ih =>
      obtain ⟨k', c⟩ := e
      by_cases hkk : k' = k
      · simp only [mdel, if_pos hkk, List.map_cons]
        exact List.Sublist.cons _ (List.Sublist.refl _)
      · simp only [mdel, hkk, if_false, List.map_cons]
        exact ih.cons₂ k'

/-- Well-formedness of the context map: keys are unique (a JS `Map`) and
nonempty (they are all produced by `getContextKey`). -/
def WFmap (m : CtxMap) : Prop :=
  (m.map Prod.fst).Nodup ∧ ∀ e ∈ m, e.1 ≠ ""

theorem WFmap_mset (m : CtxMap) (k : String) (v : Ctx)
    (h : WFmap m) (hk : k ≠ "") : WFmap (mset m k v) := by
  refine ⟨nodup_keys_mset m k v h.1, fun e he => ?_⟩
  rcases mem_mset m k v e he with h1 | h1
  · rw [h1]
    exact hk
  · exact h.2 e h1

theorem WFmap_mdel (m : CtxMap) (k : String) (h : WFmap m) : WFmap (mdel m k) :=
  ⟨h.1.sublist (keys_mdel_sublist m k), fun e he => h.2 e (mem_mdel m k e he)⟩

theorem createContext_preserves (cfg : Config) (hcap : 1 ≤ cfg.maxContexts)
    (m : CtxMap) (tid cid : String) (uid : Option String) (sys : Msg) (now : Nat)
    (h : WFmap m ∧ msize m ≤ cfg.maxContexts) :
    WFmap (createContext cfg m tid cid uid sys now) ∧
      msize (createContext cfg m tid cid uid sys now) ≤ cfg.maxContexts := by
  obtain ⟨hwf, hsz⟩ := h
  unfold createContext
  by_cases hfull : cfg.maxContexts ≤ msize m
  · simp only [if_pos hfull]
    have hne : m ≠ [] := by
      intro hnil
      rw [hnil] at hfull
      simp [msize] at hfull
      omega
    obtain ⟨⟨k0, c0⟩, holdest⟩ := oldestEntry_isSome m hne
    have hmem : (k0, c0) ∈ m := oldestEntry_mem m _ holdest
    have hk0 : k0 ≠ "" := hwf.2 _ hmem
    have hev : evictOldestContext m = mdel m k0 := by
      unfold evictOldestContext
      rw [holdest]
      simp [hk0]
    rw [hev]
    have hsome : (mget m k0).isSome := mget_isSome_of_mem m k0 c0 hmem
    have hlen : (mdel m k0).length + 1 = m.length := length_mdel_of_isSome m k0 hsome
    have hwf' : WFmap (mdel m k0) := WFmap_mdel m k0 hwf
    refine ⟨WFmap_mset _ _ _ hwf' (getContextKey_ne_empty tid cid), ?_⟩
    have := length_mset (mdel m k0) (getContextKey tid cid)
      ⟨tid, cid, uid, [sys], now⟩
    unfold msize at *
    by_cases hs : (mget (mdel m k0) (getContextKey tid cid)).isSome <;>
      simp [hs] at this <;> omega
  · simp only [if_neg hfull]
    refine ⟨WFmap_mset _ _ _ hwf (getContextKey_ne_empty tid cid), ?_⟩
    have := length_mset m (getContextKey tid cid) ⟨tid, cid, uid, [sys], now⟩
    unfold msize at *
    by_cases hs : (mget m (getContextKey tid cid)).isSome <;>
      simp [hs] at this <;> omega

/-- One `createContext` call of a call sequence. -/
structure CreateCall where
  threadId : String
  channelId : String
  userId : Option String
  systemMessage : Msg
  now : Nat

/-- A sequence of `createContext` calls applied to the initially empty map. -/
def runCreates (cfg : Config) (calls : List CreateCall) : CtxMap :=
  calls.foldl
    (fun m c => createContext cfg m c.threadId c.channelId c.userId c.systemMessage c.now) []

theorem runCreates_inv (cfg : Config) (hcap : 1 ≤ cfg.maxContexts) :
    ∀ (calls : List CreateCall) (m : CtxMap), WFmap m ∧ msize m ≤ cfg.maxContexts →
      WFmap (calls.foldl
        (fun m c => createContext cfg m c.threadId c.channelId c.userId c.systemMessage c.now) m) ∧
      msize (calls.foldl
        (fun m c => createContext cfg m c.threadId c.channelId c.userId c.systemMessage c.now) m) ≤
        cfg.maxContexts := by
  intro calls
  induction calls with
  | nil => intro m h; exact h
  | cons call rest ih =>
      intro m h
      exact ih _ (createContext_preserves cfg hcap m _ _ _ _ _ h)

/-- **C2, counterexample.**  The claim asserts `count() <= maxContexts`
after every `createContext` call, for every sequence of calls.  With
`maxContexts = 0`, the eager eviction on the empty map is a no-op
(`size === 0` returns early) and the insertion still happens, so a single
`createContext` call yields `count() = 1 > 0`. -/
theorem C2_counterexample :
    msize (runCreates (mkConfig 0 50 24) [⟨"t", "c", none, ⟨Role.system, "S0"⟩, 0⟩]) = 1 ∧
    ¬ (1 ≤ (mkConfig 0 50 24).maxContexts) := by
  constructor
  · decide
  · decide

/-- **C2 (amended).**  For `maxContexts ≥ 1`: for every sequence of
`createContext` calls, `count() <= maxContexts` holds after each call;
when an eviction occurs it removes a context whose `lastUpdated` is
minimal among all stored contexts at that instant (the first such in
insertion order), and eviction happens eagerly before the insertion.
(The original claim fails for `maxContexts = 0`.) -/
theorem C2_capacity_invariant (cfg : Config) (hcap : 1 ≤ cfg.maxContexts) :
    (∀ calls : List CreateCall, msize (runCreates cfg calls) ≤ cfg.maxContexts) ∧
    (∀ m : CtxMap, m ≠ [] →
      ∃ k0 c0, oldestEntry m = some (k0, c0) ∧ (k0, c0) ∈ m ∧
        (∀ e ∈ m, c0.lastUpdated ≤ e.2.lastUpdated) ∧
        (k0 ≠ "" → evictOldestContext m = mdel m k0)) ∧
    (∀ (m : CtxMap) (tid cid : String) (uid : Option String) (sys : Msg) (now : Nat),
      createContext cfg m tid cid uid sys now =
        mset (if cfg.maxContexts ≤ msize m then evictOldestContext m else m)
          (getContextKey tid cid) ⟨tid, cid, uid, [sys], now⟩) := by
  refine ⟨?_, ?_, ?_⟩
  · intro calls
    exact (runCreates_inv cfg hcap calls [] ⟨⟨List.nodup_nil, by simp⟩, by simp [msize]⟩).2
  · intro m hne
    obtain ⟨⟨k0, c0⟩, holdest⟩ := oldestEntry_isSome m hne
    refine ⟨k0, c0, holdest, oldestEntry_mem m _ holdest, oldestEntry_min m _ holdest, ?_⟩
    intro hk0
    unfold evictOldestContext
    rw [holdest]
    simp [hk0]
  · intro m tid cid uid sys now
    rfl

theorem C2_capacity_invariant_witness :
    (1 ≤ (mkConfig 2 50 24).maxContexts) ∧
    msize (runCreates (mkConfig 2 50 24)
      [⟨"t1", "c", none, msgS0, 0⟩, ⟨"t2", "c", none, msgS0, 1⟩,
       ⟨"t3", "c", none, msgS0, 2⟩]) ≤ (mkConfig 2 50 24).maxContexts ∧
    runCreates (mkConfig 2 50 24)
      [⟨"t1", "c", none, msgS0, 0⟩, ⟨"t2", "c", none, msgS0, 1⟩,
       ⟨"t3", "c", none, msgS0, 2⟩] =
      [(getContextKey "t2" "c", ⟨"t2", "c", none, [msgS0], 1⟩),
       (getContextKey "t3" "c", ⟨"t3", "c", none, [msgS0], 2⟩)] :=
  ⟨by decide,
   (C2_capacity_invariant (mkConfig 2 50 24) (by decide)).1
     [⟨"t1", "c", none, msgS0, 0⟩, ⟨"t2", "c", none, msgS0, 1⟩,
      ⟨"t3", "c", none, msgS0, 2⟩],
   by decide⟩

end SlackSupabase

namespace SlackSupabase

/-! ### Claim C7: TTL sweep (`cleanupExpiredContexts`) -/

/-- **C7.**  After a run of `cleanupExpiredContexts`, an entry is stored
iff it was stored before and `now - lastUpdated ≤ ttl`: every expired
context (`now - lastUpdated > ttl`) has been removed, no non-expired
context is removed, and expired contexts are absent from
`getAllContexts` (`listAll`).  The constructor schedules the sweep with
`setInterval` on the fixed period `contextTtlMs / 2` — exactly half the
TTL. -/
theorem C7_ttl_sweep :
    (∀ (cfg : Config) (m : CtxMap) (now : Nat) (k : String) (c : Ctx),
      (k, c) ∈ cleanupExpiredContexts cfg m now ↔
        (k, c) ∈ m ∧ now - c.lastUpdated ≤ cfg.contextTtlMs) ∧
    (∀ (cfg : Config) (m : CtxMap) (now : Nat) (c : Ctx),
      c ∈ getAllContexts (cleanupExpiredContexts cfg m now) →
        now - c.lastUpdated ≤ cfg.contextTtlMs) ∧
    (∀ maxC maxM hours : Nat,
      cleanupIntervalMs (mkConfig maxC maxM hours) =
        (mkConfig maxC maxM hours).contextTtlMs / 2 ∧
      2 * cleanupIntervalMs (mkConfig maxC maxM hours) =
        (mkConfig maxC maxM hours).contextTtlMs) := by
  refine ⟨?_, ?_, ?_⟩
  · intro cfg m now k c
    simp [cleanupExpiredContexts, List.mem_filter]
  · intro cfg m now c hc
    simp only [getAllContexts, List.mem_map] at hc
    obtain ⟨e, he, hsnd⟩ := hc
    have := (List.mem_filter.mp he).2
    simp only [decide_eq_true_eq] at this
    rw [← hsnd]
    exact this
  · intro maxC maxM hours
    refine ⟨rfl, ?_⟩
    unfold cleanupIntervalMs mkConfig
    simp only []
    omega

theorem C7_ttl_sweep_witness :
    (getContextKey "t2" "c", ⟨"t2", "c", none, [msgS0], 900⟩) ∈
      cleanupExpiredContexts (mkConfig 1000 50 24)
        [(getContextKey "t1" "c", ⟨"t1", "c", none, [msgS0], 0⟩),
         (getContextKey "t2" "c", ⟨"t2", "c", none, [msgS0], 900⟩)] 86400500 :=
  (C7_ttl_sweep.1 (mkConfig 1000 50 24) _ 86400500 _ _).mpr ⟨by decide, by decide⟩

/-! ### Claim C9: `updateSystemMessage` never trims -/

/-- **C9.**  `updateSystemMessage` replaces the message at index 0 in
place when that message has role `system` (keeping the length), and
otherwise inserts a new system message at index 0 (length + 1); in either
case it never trims the stored list, even when the insertion makes
`messages.length` exceed `maxMessagesPerContext` (the bound does not
occur in the resulting list at all). -/
theorem C9_updateSystemMessage (cfg : Config) (m : CtxMap) (tid cid : String)
    (text : String) (now : Nat) (c : Ctx)
    (hget : mget m (getContextKey tid cid) = some c) :
    ∃ c', mget (updateSystemMessage cfg m tid cid text now) (getContextKey tid cid) =
        some c' ∧
      c'.messages = updateSystemMessageList c.messages text ∧
      ((∃ m0 rest, c.messages = m0 :: rest ∧ m0.role = Role.system) →
        c'.messages = createSystemMessage text :: c.messages.tail ∧
        c'.messages.length = c.messages.length) ∧
      (¬ (∃ m0 rest, c.messages = m0 :: rest ∧ m0.role = Role.system) →
        c'.messages = createSystemMessage text :: c.messages ∧
        c'.messages.length = c.messages.length + 1) := by
  have hm1 : getOrCreateContext cfg m tid cid none now = m := by
    unfold getOrCreateContext getContext
    rw [hget]
  have heq : updateSystemMessage cfg m tid cid text now =
      mset m (getContextKey tid cid)
        { c with messages := updateSystemMessageList c.messages text
                 lastUpdated := now } := by
    unfold updateSystemMessage
    rw [hm1]
    simp only [hget]
  rw [heq]
  refine ⟨_, mget_mset_self _ _ _, rfl, ?_, ?_⟩
  · rintro ⟨m0, rest, hms, hrole⟩
    rw [hms]
    simp [updateSystemMessageList, hrole]
  · intro hns
    cases hms : c.messages with
    | nil => simp [updateSystemMessageList, hms]
    | cons m0 rest =>
        have hrole : ¬ m0.role = Role.system := fun hr => hns ⟨m0, rest, hms, hr⟩
        simp [updateSystemMessageList, hrole]

theorem C9_updateSystemMessage_witness :
    (∃ c', mget (updateSystemMessage (mkConfig 1000 1 24)
          [(keyTC, ⟨"t", "c", none, [msgU1], 0⟩)] "t" "c" "sys" 5)
          (getContextKey "t" "c") = some c' ∧
      c'.messages = updateSystemMessageList [msgU1] "sys" ∧
      ((∃ m0 rest, ([msgU1] : List Msg) = m0 :: rest ∧ m0.role = Role.system) →
        c'.messages = createSystemMessage "sys" :: ([msgU1] : List Msg).tail ∧
        c'.messages.length = ([msgU1] : List Msg).length) ∧
      (¬ (∃ m0 rest, ([msgU1] : List Msg) = m0 :: rest ∧ m0.role = Role.system) →
        c'.messages = createSystemMessage "sys" :: [msgU1] ∧
        c'.messages.length = ([msgU1] : List Msg).length + 1)) ∧
    ((mget (updateSystemMessage (mkConfig 1000 1 24)
          [(keyTC, ⟨"t", "c", none, [msgU1], 0⟩)] "t" "c" "sys" 5) keyTC).map
        (fun c => c.messages.length) = some 2 ∧
      ¬ (2 ≤ (mkConfig 1000 1 24).maxMessagesPerContext)) :=
  ⟨C9_updateSystemMessage (mkConfig 1000 1 24) [(keyTC, ⟨"t", "c", none, [msgU1], 0⟩)]
      "t" "c" "sys" 5 ⟨"t", "c", none, [msgU1], 0⟩ (by decide),
   by decide, by decide⟩

/-! ### Claim C10: `createContext` on an existing key at capacity -/

/-- **C10, counterexample.**  The claim asserts that when the store is at
capacity and the key already exists, the total count decreases by one.
With `maxContexts = 1` and the single stored context being the one
re-created, that context is itself the oldest: eviction deletes it and
the insertion re-adds the key, so the count stays `1`, not `0`. -/
theorem C10_counterexample :
    msize (createContext (mkConfig 1 50 24)
      [(getContextKey "t" "c", ⟨"t", "c", none, [msgS0, msgU1], 0⟩)]
      "t" "c" none msgS0 5) = 1 ∧
    ¬ ((1 : Nat) = 1 - 1) := by
  constructor
  · decide
  · decide

/-- **C10 (amended).**  Calling `createContext` for a key that is already
present replaces the stored context with a fresh one containing only the
seed system message (the history is discarded), and when the store is at
capacity it additionally evicts the context with the oldest `lastUpdated`
even though no net insertion occurs.  The count decreases by one when the
evicted (oldest) context is a *different* key; when the key being
re-created is itself the oldest, the count is unchanged. -/
theorem C10_createContext_replace (cfg : Config) (m : CtxMap) (tid cid : String)
    (uid : Option String) (sys : Msg) (now : Nat) (cOld : Ctx) (k0 : String) (c0 : Ctx)
    (hwf : WFmap m)
    (hget : mget m (getContextKey tid cid) = some cOld)
    (hfull : cfg.maxContexts ≤ msize m)
    (holdest : oldestEntry m = some (k0, c0)) :
    mget (createContext cfg m tid cid uid sys now) (getContextKey tid cid) =
      some ⟨tid, cid, uid, [sys], now⟩ ∧
    (∀ e ∈ m, c0.lastUpdated ≤ e.2.lastUpdated) ∧
    (k0 ≠ getContextKey tid cid →
      msize (createContext cfg m tid cid uid sys now) = msize m - 1) ∧
    (k0 = getContextKey tid cid →
      msize (createContext cfg m tid cid uid sys now) = msize m) := by
  have hmem0 : (k0, c0) ∈ m := oldestEntry_mem m _ holdest
  have hk0 : k0 ≠ "" := hwf.2 _ hmem0
  have hev : evictOldestContext m = mdel m k0 := by
    unfold evictOldestContext
    rw [holdest]
    simp [hk0]
  have heq : createContext cfg m tid cid uid sys now =
      mset (mdel m k0) (getContextKey tid cid) ⟨tid, cid, uid, [sys], now⟩ := by
    unfold createContext
    rw [if_pos hfull, hev]
  have hdel : (mdel m k0).length + 1 = m.length :=
    length_mdel_of_isSome m k0 (mget_isSome_of_mem m k0 c0 hmem0)
  refine ⟨heq ▸ mget_mset_self _ _ _, oldestEntry_min m _ holdest, ?_, ?_⟩
  · intro hne
    rw [heq]
    have hstill : mget (mdel m k0) (getContextKey tid cid) = some cOld := by
      rw [mget_mdel_ne m k0 (getContextKey tid cid) hne, hget]
    have := length_mset (mdel m k0) (getContextKey tid cid) ⟨tid, cid, uid, [sys], now⟩
    rw [hstill] at this
    simp only [Option.isSome_some, if_pos] at this
    unfold msize
    omega
  · intro hkey
    rw [heq]
    have hgone : mget (mdel m k0) (getContextKey tid cid) = none := by
      rw [← hkey]
      exact mget_mdel_self m k0 hwf.1
    have := length_mset (mdel m k0) (getContextKey tid cid) ⟨tid, cid, uid, [sys], now⟩
    rw [hgone] at this
    simp only [Option.isSome_none, Bool.false_eq_true, if_false] at this
    unfold msize
    omega

theorem C10_createContext_replace_witness :
    mget (createContext (mkConfig 2 50 24)
        [(getContextKey "t1" "c", ⟨"t1", "c", none, [msgS0], 0⟩),
         (getContextKey "t" "c", ⟨"t", "c", none, [msgS0, msgU1], 5⟩)]
        "t" "c" none msgS0 9) (getContextKey "t" "c") =
      some ⟨"t", "c", none, [msgS0], 9⟩ ∧
    (∀ e ∈ [(getContextKey "t1" "c", (⟨"t1", "c", none, [msgS0], 0⟩ : Ctx)),
            (getContextKey "t" "c", ⟨"t", "c", none, [msgS0, msgU1], 5⟩)],
      (0 : Nat) ≤ e.2.lastUpdated) ∧
    (getContextKey "t1" "c" ≠ getContextKey "t" "c" →
      msize (createContext (mkConfig 2 50 24)
        [(getContextKey "t1" "c", ⟨"t1", "c", none, [msgS0], 0⟩),
         (getContextKey "t" "c", ⟨"t", "c", none, [msgS0, msgU1], 5⟩)]
        "t" "c" none msgS0 9) =
        msize [(getContextKey "t1" "c", (⟨"t1", "c", none, [msgS0], 0⟩ : Ctx)),
               (getContextKey "t" "c", ⟨"t", "c", none, [msgS0, msgU1], 5⟩)] - 1) ∧
    (getContextKey "t1" "c" = getContextKey "t" "c" →
      msize (createContext (mkConfig 2 50 24)
        [(getContextKey "t1" "c", ⟨"t1", "c", none, [msgS0], 0⟩),
         (getContextKey "t" "c", ⟨"t", "c", none, [msgS0, msgU1], 5⟩)]
        "t" "c" none msgS0 9) =
        msize [(getContextKey "t1" "c", (⟨"t1", "c", none, [msgS0], 0⟩ : Ctx)),
               (getContextKey "t" "c", ⟨"t", "c", none, [msgS0, msgU1], 5⟩)]) :=
  C10_createContext_replace (mkConfig 2 50 24) _ "t" "c" none msgS0 9
    ⟨"t", "c", none, [msgS0, msgU1], 5⟩ (getContextKey "t1" "c") ⟨"t1", "c", none, [msgS0], 0⟩
    ⟨by decide, by decide⟩ (by decide) (by decide) (by decide)

end SlackSupabase

namespace SlackSupabase

/-! ### The streaming event loop of `processMessageAndGenerateResponse`

The driver below embeds the streaming branch of
`processMessageAndGenerateResponse` (`src/slack/events/index.ts`).  Slack
calls are modelled as atomic entries of a call trace, applied in issue
order; Block-Kit rendering is opaque, so a call records the content
string and metadata handed to `blockKit.aiResponseMessage` /
`blockKit.errorMessage`.  Message timestamps are numbered `0, 1, 2, …`
in posting order (the "Thinking..." placeholder is message `0`).

The single-threaded JS execution of one turn is a sequence of steps: the
agent events in stream order, interleaved with throttle-timer firings
(`StreamItem.fire`, which can only occur while `updateScheduled` is set,
and reads the then-current `accumulatedContent`), and possibly a thrown
exception (`StreamItem.throwErr`, e.g. a stream read failure).  After the
loop the code waits `UPDATE_INTERVAL_MS + 100` ms, so a timer scheduled
before stream end has fired before the final update is issued; the model
therefore flushes a still-pending scheduled update (with the final
accumulated text, as the callback closure reads it at fire time) before
the final update.  The turn is modelled for a thread whose context
already exists and is nonempty, so `initializeContextFromHistory` is a
no-op; `addUserMessageToThread` runs before the backend is invoked and
`addAssistantMessageToThread` after a successful final update, both via
`contextManager.addMessage`. -/

/-- Events of `AgentStreamEvent` as consumed by the `switch`. -/
inductive AgentEvent
  | llm_chunk (data : String)
  | tool_calls (names : List String)
  | tool_result (data : String)
  | final_message (content : Option String) (metadata : Option String)
  | errorEv (data : String)
  | unknownEv
  deriving DecidableEq, Repr

/-- One step of the single-threaded execution of a turn. -/
inductive StreamItem
  | ev (e : AgentEvent)
  | fire
  | throwErr
  deriving DecidableEq, Repr

/-- A Slack API call issued during the turn. -/
inductive SlackCall
  | postLoading (ts : Nat) (text : String)
  | update (ts : Nat) (content : String) (metadata : Option String)
  | updateError (ts : Nat) (title body details : String)
  | postError (title body details : String)
  deriving DecidableEq, Repr

/-- The local mutable state of `processMessageAndGenerateResponse`. -/
structure TurnState where
  lastMessageTs : Option Nat
  accumulated : String
  finalMetadata : Option String
  updateScheduled : Bool
  nextTs : Nat
  deriving DecidableEq, Repr

/-- Outcome of the `for await` loop: normal end of stream, early `return`
(error event), or a thrown exception. -/
inductive LoopOutcome
  | finished (s : TurnState) (calls : List SlackCall)
  | returned (calls : List SlackCall)
  | threw (calls : List SlackCall)
  deriving DecidableEq, Repr

def LoopOutcome.prepend (cs : List SlackCall) : LoopOutcome → LoopOutcome
  | .finished s calls => .finished s (cs ++ calls)
  | .returned calls => .returned (cs ++ calls)
  | .threw calls => .threw (cs ++ calls)

def thinkingText : String := "Thinking..."
def agentErrorTitle : String := "Agent Error"
def agentErrorBody : String := "Er is een fout opgetreden bij de agent."
def processErrorTitle : String := "Error Processing Request"
def processErrorBody : String := "An error occurred while generating the response."

/-- The "Using tool X..." interstitial text (abbreviated). -/
def toolThinkingText (n : String) : String := "Ik gebruik nu de tool " ++ n ++ "..."

/-- The `tool_result` update text for a string payload:
`substring(0, 100) + '...'` preceded by the fixed prefix. -/
def toolResultText (d : String) : String := "Tool klaar. " ++ d.take 100 ++ "..."

/-- The `for await (const event of eventStream)` loop. -/
def runLoop : List StreamItem → TurnState → LoopOutcome
  | [], s => .finished s []
  | .fire :: rest, s =>
      if s.updateScheduled then
        match s.lastMessageTs with
        | some ts =>
            (runLoop rest { s with updateScheduled := false }).prepend
              [.update ts (s.accumulated ++ " ") none]
        | none => runLoop rest { s with updateScheduled := false }
      else runLoop rest s
  | .throwErr :: _, _ => .threw []
  | .ev (.llm_chunk d) :: rest, s =>
      if d = "" then runLoop rest s
      else runLoop rest { s with accumulated := s.accumulated ++ d, updateScheduled := true }
  | .ev (.tool_calls []) :: rest, s =>
      (runLoop rest s).prepend
        (match s.lastMessageTs with
         | some ts => [.update ts s.accumulated none]
         | none => [])
  | .ev (.tool_calls (n :: _)) :: rest, s =>
      (runLoop rest
        { s with lastMessageTs := some s.nextTs, accumulated := "", nextTs := s.nextTs + 1 }).prepend
        ((match s.lastMessageTs with
          | some ts => [SlackCall.update ts s.accumulated none]
          | none => []) ++ [.postLoading s.nextTs (toolThinkingText n)])
  | .ev (.tool_result d) :: rest, s =>
      match s.lastMessageTs with
      | some ts => (runLoop rest s).prepend [.update ts (toolResultText d) none]
      | none => runLoop rest s
  | .ev (.final_message content (some v)) :: rest, s =>
      runLoop rest { s with accumulated := content.getD s.accumulated, finalMetadata := some v }
  | .ev (.final_message content none) :: rest, s =>
      runLoop rest { s with accumulated := content.getD s.accumulated }
  | .ev (.errorEv d) :: _, s =>
      match s.lastMessageTs with
      | some ts => .returned [.updateError ts agentErrorTitle agentErrorBody d]
      | none => .returned []
  | .ev .unknownEv :: rest, s => runLoop rest s

/-- The local state at the top of the `try` block, after the
"Thinking..." message (ts `0`) has been posted. -/
def initialTurnState : TurnState := ⟨some 0, "", none, false, 1⟩

/-- Result of one whole turn. -/
structure TurnResult where
  calls : List SlackCall
  ctxMap : CtxMap
  committed : Option String
  deriving DecidableEq, Repr

/-- The whole of `processMessageAndGenerateResponse` (streaming variant).
`failInitialPost` makes the initial `postMessage` throw (reaching the
`catch` with `thinkingMessageTs` undefined); `failFinalUpdate` makes the
final `updateMessage` throw. -/
def runTurn (cfg : Config) (m0 : CtxMap) (tid cid : String) (userText : String)
    (items : List StreamItem) (failInitialPost failFinalUpdate : Bool) (now : Nat) :
    TurnResult :=
  if failInitialPost then
    { calls := [.postError processErrorTitle processErrorBody "postMessage failed"]
      ctxMap := m0, committed := none }
  else
    let m1 := addMessage cfg m0 tid cid (userMessage userText) now
    let preCalls : List SlackCall := [.postLoading 0 thinkingText]
    match runLoop items initialTurnState with
    | .finished s loopCalls =>
        match s.lastMessageTs with
        | some ts =>
            let pend : List SlackCall :=
              if s.updateScheduled then [.update ts (s.accumulated ++ " ") none] else []
            if failFinalUpdate then
              { calls := preCalls ++ loopCalls ++ pend ++
                  [.updateError 0 processErrorTitle processErrorBody "update failed"]
                ctxMap := m1, committed := none }
            else
              { calls := preCalls ++ loopCalls ++ pend ++
                  [.update ts s.accumulated s.finalMetadata]
                ctxMap := addMessage cfg m1 tid cid (assistantMessage s.accumulated) now
                committed := some s.accumulated }
        | none => { calls := preCalls ++ loopCalls, ctxMap := m1, committed := none }
    | .returned loopCalls => { calls := preCalls ++ loopCalls, ctxMap := m1, committed := none }
    | .threw loopCalls =>
        { calls := preCalls ++ loopCalls ++
            [.updateError 0 processErrorTitle processErrorBody "stream failed"]
          ctxMap := m1, committed := none }

/-- A step is terminal iff it aborts the loop (error event or thrown
exception). -/
def StreamItem.isTerminal : StreamItem → Bool
  | .throwErr => true
  | .ev (.errorEv _) => true
  | _ => false

/-- A stream with no terminal failure step. -/
def cleanItems (items : List StreamItem) : Prop :=
  ∀ it ∈ items, it.isTerminal = false

instance (items : List StreamItem) : Decidable (cleanItems items) :=
  List.decidableBAll _ items

/-- An error render (either an edited or a freshly posted error message). -/
def isErrorRender : SlackCall → Bool
  | .updateError _ _ _ _ => true
  | .postError _ _ _ => true
  | _ => false

/-- Modelled from the spec (§4.3): the "true final accumulated text" of a
turn — `content-delta` fragments are appended, `tool-invocation-start`
(1+ requested tool calls) resets the accumulator for the next phase, and
a `final` event's content overrides it. -/
def specAccumulatedText : List StreamItem → String → String
  | [], a => a
  | .ev (.llm_chunk d) :: r, a => specAccumulatedText r (a ++ d)
  | .ev (.tool_calls []) :: r, a => specAccumulatedText r a
  | .ev (.tool_calls (_ :: _)) :: r, _ => specAccumulatedText r ""
  | .ev (.final_message c _) :: r, a => specAccumulatedText r (c.getD a)
  | _ :: r, a => specAccumulatedText r a

/-- Modelled from the spec (§4.3): the final metadata of a turn — the
metadata attached to the last `final` event carrying one. -/
def specFinalMetadata : List StreamItem → Option String → Option String
  | [], md => md
  | .ev (.final_message _ (some v)) :: r, _ => specFinalMetadata r (some v)
  | _ :: r, md => specFinalMetadata r md

end SlackSupabase


namespace SlackSupabase

theorem LoopOutcome.prepend_prepend (o : LoopOutcome) (cs cs' : List SlackCall) :
    (o.prepend cs).prepend cs' = o.prepend (cs' ++ cs) := by
  cases o <;> simp [LoopOutcome.prepend]

/-- On a stream with no terminal failure step, the loop finishes; its
final accumulator and metadata are the spec-level folds, the active
message handle stays set, and no error render is emitted. -/
theorem runLoop_clean :
    ∀ (items : List StreamItem) (s : TurnState), cleanItems items →
      ∃ s' calls, runLoop items s = .finished s' calls ∧
        s'.accumulated = specAccumulatedText items s.accumulated ∧
        s'.finalMetadata = specFinalMetadata items s.finalMetadata ∧
        (s.lastMessageTs.isSome → s'.lastMessageTs.isSome) ∧
        (∀ call ∈ calls, isErrorRender call = false) := by
  intro items
  induction items with
  | nil =>
      intro s _
      exact ⟨s, [], rfl, rfl, rfl, fun h => h, by simp⟩
  | cons item rest ih =>
      intro s hclean
      have hcleanRest : cleanItems rest := fun it hit => hclean it (List.mem_cons_of_mem _ hit)
      have hhead := hclean item (List.mem_cons_self _ _)
      cases item with
      | fire =>
          by_cases hsch : s.updateScheduled
          · cases hts : s.lastMessageTs with
            | some ts =>
                obtain ⟨s', calls, hrun, hacc, hmd, hts', herr⟩ :=
                  ih { s with updateScheduled := false } hcleanRest
                rw [hts] at hrun
                refine ⟨s', [SlackCall.update ts (s.accumulated ++ " ") none] ++ calls,
                  ?_, ?_, ?_, ?_, ?_⟩
                · simp only [runLoop, if_pos hsch, hts]
                  rw [hrun]
                  rfl
                · simpa [specAccumulatedText] using hacc
                · simpa [specFinalMetadata] using hmd
                · intro h
                  apply hts'
                  simp [hts]
                · intro call hc
                  rcases List.mem_cons.mp hc with h1 | h1
                  · rw [h1]; rfl
                  · exact herr call h1
            | none =>
                obtain ⟨s', calls, hrun, hacc, hmd, hts', herr⟩ :=
                  ih { s with updateScheduled := false } hcleanRest
                rw [hts] at hrun
                refine ⟨s', calls, ?_, ?_, ?_, ?_, herr⟩
                · simp only [runLoop, if_pos hsch, hts]
                  rw [hrun]
                · simpa [specAccumulatedText] using hacc
                · simpa [specFinalMetadata] using hmd
                · intro h
                  simp at h
          · obtain ⟨s', calls, hrun, hacc, hmd, hts', herr⟩ := ih s hcleanRest
            refine ⟨s', calls, ?_, ?_, ?_, hts', herr⟩
            · simp only [runLoop, if_neg hsch]
              rw [hrun]
            · simpa [specAccumulatedText] using hacc
            · simpa [specFinalMetadata] using hmd
      | throwErr => simp [StreamItem.isTerminal] at hhead
      | ev e =>
          cases e with
          | llm_chunk d =>
              by_cases hd : d = ""
              · obtain ⟨s', calls, hrun, hacc, hmd, hts', herr⟩ := ih s hcleanRest
                refine ⟨s', calls, ?_, ?_, ?_, hts', herr⟩
                · simp only [runLoop, if_pos hd]
                  rw [hrun]
                · rw [hacc]
                  simp [specAccumulatedText, hd]
                · simpa [specFinalMetadata] using hmd
              · obtain ⟨s', calls, hrun, hacc, hmd, hts', herr⟩ :=
                  ih { s with accumulated := s.accumulated ++ d, updateScheduled := true }
                    hcleanRest
                refine ⟨s', calls, ?_, ?_, ?_, ?_, herr⟩
                · simp only [runLoop, if_neg hd]
                  rw [hrun]
                · simpa [specAccumulatedText] using hacc
                · simpa [specFinalMetadata] using hmd
                · intro h
                  apply hts'
                  simpa using h
          | tool_calls names =>
              cases names with
              | nil =>
                  obtain ⟨s', calls, hrun, hacc, hmd, hts', herr⟩ := ih s hcleanRest
                  cases hts : s.lastMessageTs with
                  | some ts =>
                      refine ⟨s', [SlackCall.update ts s.accumulated none] ++ calls,
                        ?_, ?_, ?_, ?_, ?_⟩
                      · simp only [runLoop, hts]
                        rw [hrun]
                        rfl
                      · simpa [specAccumulatedText] using hacc
                      · simpa [specFinalMetadata] using hmd
                      · intro h
                        apply hts'
                        simp [hts]
                      · intro call hc
                        rcases List.mem_cons.mp hc with h1 | h1
                        · rw [h1]; rfl
                        · exact herr call h1
                  | none =>
                      refine ⟨s', calls, ?_, ?_, ?_, ?_, herr⟩
                      · simp only [runLoop, hts]
                        rw [hrun]
                        rfl
                      · simpa [specAccumulatedText] using hacc
                      · simpa [specFinalMetadata] using hmd
                      · intro h
                        simp at h
              | cons n ns =>
                  obtain ⟨s', calls, hrun, hacc, hmd, hts', herr⟩ :=
                    ih { s with lastMessageTs := some s.nextTs, accumulated := ""
                                nextTs := s.nextTs + 1 } hcleanRest
                  refine ⟨s',
                    ((match s.lastMessageTs with
                      | some ts => [SlackCall.update ts s.accumulated none]
                      | none => []) ++ [SlackCall.postLoading s.nextTs (toolThinkingText n)])
                      ++ calls, ?_, ?_, ?_, ?_, ?_⟩
                  · simp only [runLoop]
                    rw [hrun]
                    rfl
                  · simpa [specAccumulatedText] using hacc
                  · simpa [specFinalMetadata] using hmd
                  · intro h
                    apply hts'
                    simp
                  · intro call hc
                    rcases List.mem_append.mp hc with h1 | h1
                    · rcases List.mem_append.mp h1 with h2 | h2
                      · cases hts : s.lastMessageTs with
                        | some ts =>
                            rw [hts] at h2
                            have h3 := List.mem_singleton.mp h2
                            rw [h3]; rfl
                        | none =>
                            rw [hts] at h2
                            simp at h2
                      · have h3 := List.mem_singleton.mp h2
                        rw [h3]; rfl
                    · exact herr call h1
          | tool_result d =>
              obtain ⟨s', calls, hrun, hacc, hmd, hts', herr⟩ := ih s hcleanRest
              cases hts : s.lastMessageTs with
              | some ts =>
                  refine ⟨s', [SlackCall.update ts (toolResultText d) none] ++ calls,
                    ?_, ?_, ?_, ?_, ?_⟩
                  · simp only [runLoop, hts]
                    rw [hrun]
                    rfl
                  · simpa [specAccumulatedText] using hacc
                  · simpa [specFinalMetadata] using hmd
                  · intro h
                    apply hts'
                    simp [hts]
                  · intro call hc
                    rcases List.mem_cons.mp hc with h1 | h1
                    · rw [h1]; rfl
                    · exact herr call h1
              | none =>
                  refine ⟨s', calls, ?_, ?_, ?_, ?_, herr⟩
                  · simp only [runLoop, hts]
                    rw [hrun]
                  · simpa [specAccumulatedText] using hacc
                  · simpa [specFinalMetadata] using hmd
                  · intro h
                    simp at h
          | final_message content md =>
              cases md with
              | some v =>
                  obtain ⟨s', calls, hrun, hacc, hmd, hts', herr⟩ :=
                    ih { s with accumulated := content.getD s.accumulated
                                finalMetadata := some v } hcleanRest
                  refine ⟨s', calls, ?_, ?_, ?_, ?_, herr⟩
                  · simp only [runLoop]
                    rw [hrun]
                  · simpa [specAccumulatedText] using hacc
                  · simpa [specFinalMetadata] using hmd
                  · intro h
                    apply hts'
                    simpa using h
              | none =>
                  obtain ⟨s', calls, hrun, hacc, hmd, hts', herr⟩ :=
                    ih { s with accumulated := content.getD s.accumulated } hcleanRest
                  refine ⟨s', calls, ?_, ?_, ?_, ?_, herr⟩
                  · simp only [runLoop]
                    rw [hrun]
                  · simpa [specAccumulatedText] using hacc
                  · simpa [specFinalMetadata] using hmd
                  · intro h
                    apply hts'
                    simpa using h
          | errorEv d => simp [StreamItem.isTerminal] at hhead
          | unknownEv =>
              obtain ⟨s', calls, hrun, hacc, hmd, hts', herr⟩ := ih s hcleanRest
              refine ⟨s', calls, ?_, ?_, ?_, hts', herr⟩
              · simp only [runLoop]
                rw [hrun]
              · simpa [specAccumulatedText] using hacc
              · simpa [specFinalMetadata] using hmd

end SlackSupabase

namespace SlackSupabase

theorem LoopOutcome.prepend_nil (o : LoopOutcome) : o.prepend [] = o := by
  cases o <;> simp [LoopOutcome.prepend]

/-- A non-terminal step factors as: emit this step's calls, continue in
the stepped state — uniformly in the remaining stream. -/
theorem runLoop_cons_clean (item : StreamItem) (hterm : item.isTerminal = false)
    (s : TurnState) :
    ∃ s₂ cs, ∀ rest, runLoop (item :: rest) s = (runLoop rest s₂).prepend cs := by
  cases item with
  | fire =>
      by_cases hsch : s.updateScheduled
      · cases hts : s.lastMessageTs with
        | some ts =>
            refine ⟨{ s with updateScheduled := false },
              [SlackCall.update ts (s.accumulated ++ " ") none], fun rest => ?_⟩
            simp only [runLoop, if_pos hsch, hts]
        | none =>
            refine ⟨{ s with updateScheduled := false }, [], fun rest => ?_⟩
            simp only [runLoop, if_pos hsch, hts, LoopOutcome.prepend_nil]
      · refine ⟨s, [], fun rest => ?_⟩
        simp only [runLoop, if_neg hsch, LoopOutcome.prepend_nil]
  | throwErr => simp [StreamItem.isTerminal] at hterm
  | ev e =>
      cases e with
      | llm_chunk d =>
          by_cases hd : d = ""
          · refine ⟨s, [], fun rest => ?_⟩
            simp only [runLoop, if_pos hd, LoopOutcome.prepend_nil]
          · refine ⟨{ s with accumulated := s.accumulated ++ d, updateScheduled := true },
              [], fun rest => ?_⟩
            simp only [runLoop, if_neg hd, LoopOutcome.prepend_nil]
      | tool_calls names =>
          cases names with
          | nil => exact ⟨_, _, fun rest => rfl⟩
          | cons n ns => exact ⟨_, _, fun rest => rfl⟩
      | tool_result d =>
          cases hts : s.lastMessageTs with
          | some ts =>
              refine ⟨s, [SlackCall.update ts (toolResultText d) none], fun rest => ?_⟩
              simp only [runLoop, hts]
          | none =>
              refine ⟨s, [], fun rest => ?_⟩
              simp only [runLoop, hts, LoopOutcome.prepend_nil]
      | final_message content md =>
          cases md with
          | some v =>
              refine ⟨{ s with accumulated := content.getD s.accumulated
                               finalMetadata := some v }, [], fun rest => ?_⟩
              simp only [runLoop, LoopOutcome.prepend_nil]
          | none =>
              refine ⟨{ s with accumulated := content.getD s.accumulated }, [],
                fun rest => ?_⟩
              simp only [runLoop, LoopOutcome.prepend_nil]
      | errorEv d => simp [StreamItem.isTerminal] at hterm
      | unknownEv =>
          refine ⟨s, [], fun rest => ?_⟩
          simp only [runLoop, LoopOutcome.prepend_nil]

/-- A clean prefix of the stream commutes with the rest of the loop:
the loop first emits the prefix's calls from the prefix's final state. -/
theorem runLoop_append_clean :
    ∀ (pre : List StreamItem) (s : TurnState), cleanItems pre →
      ∃ s' calls, runLoop pre s = .finished s' calls ∧
        ∀ rest, runLoop (pre ++ rest) s = (runLoop rest s').prepend calls := by
  intro pre
  induction pre with
  | nil =>
      intro s _
      exact ⟨s, [], rfl, fun rest => (LoopOutcome.prepend_nil _).symm⟩
  | cons item pre' ih =>
      intro s hclean
      obtain ⟨s₂, cs, hstep⟩ :=
        runLoop_cons_clean item (hclean item (List.mem_cons_self _ _)) s
      obtain ⟨s'', calls'', hfin, happ⟩ :=
        ih s₂ (fun it hit => hclean it (List.mem_cons_of_mem _ hit))
      refine ⟨s'', cs ++ calls'', ?_, ?_⟩
      · rw [hstep pre', hfin]
        rfl
      · intro rest
        rw [List.cons_append, hstep (pre' ++ rest), happ rest,
          LoopOutcome.prepend_prepend]

/-- A stream containing a terminal failure step never finishes normally:
the loop returns early or throws. -/
theorem runLoop_not_clean :
    ∀ (items : List StreamItem) (s : TurnState), ¬ cleanItems items →
      (∃ calls, runLoop items s = .returned calls) ∨
      (∃ calls, runLoop items s = .threw calls) := by
  intro items
  induction items with
  | nil =>
      intro s h
      exact absurd (fun it hit => absurd hit (List.not_mem_nil it)) h
  | cons item rest ih =>
      intro s h
      by_cases hterm : item.isTerminal = true
      · cases item with
        | fire => simp [StreamItem.isTerminal] at hterm
        | throwErr => exact Or.inr ⟨[], rfl⟩
        | ev e =>
            cases e with
            | errorEv d =>
                cases hts : s.lastMessageTs with
                | some ts =>
                    refine Or.inl ⟨[SlackCall.updateError ts agentErrorTitle agentErrorBody d], ?_⟩
                    simp only [runLoop, hts]
                | none =>
                    refine Or.inl ⟨[], ?_⟩
                    simp only [runLoop, hts]
            | llm_chunk d => simp [StreamItem.isTerminal] at hterm
            | tool_calls names => simp [StreamItem.isTerminal] at hterm
            | tool_result d => simp [StreamItem.isTerminal] at hterm
            | final_message content md => simp [StreamItem.isTerminal] at hterm
            | unknownEv => simp [StreamItem.isTerminal] at hterm
      · have hterm' : item.isTerminal = false := by simpa using hterm
        obtain ⟨s₂, cs, hstep⟩ := runLoop_cons_clean item hterm' s
        have hrest : ¬ cleanItems rest := by
          intro hcr
          apply h
          intro it hit
          rcases List.mem_cons.mp hit with h1 | h1
          · rw [h1]; exact hterm'
          · exact hcr it h1
        rcases ih s₂ hrest with ⟨calls, hc⟩ | ⟨calls, hc⟩
        · refine Or.inl ⟨cs ++ calls, ?_⟩
          rw [hstep rest, hc]
          rfl
        · refine Or.inr ⟨cs ++ calls, ?_⟩
          rw [hstep rest, hc]
          rfl

end SlackSupabase

namespace SlackSupabase

theorem getLast?_concat_call (l : List SlackCall) (x : SlackCall) :
    (l ++ [x]).getLast? = some x := by
  induction l with
  | nil => rfl
  | cons a t ih =>
      cases t with
      | nil => rfl
      | cons b t' =>
          simp only [List.cons_append] at ih ⊢
          rw [List.getLast?_cons_cons]
          exact ih

/-- **C3.**  For every event sequence consumed in one streaming turn with
no terminal failure, the last Slack write of the turn is the final
`updateMessage` carrying the true final accumulated text (`content-delta`
fragments, reset by tool interstitials, overridden by a `final` event's
content when one was received) together with the final metadata — never a
stale intermediate snapshot, even if a throttled update was still
scheduled when the stream ended (the code waits `UPDATE_INTERVAL_MS +
100` ms, so such an update fires, with the current text, before the
final flush is issued). -/
theorem C3_final_flush (cfg : Config) (m0 : CtxMap) (tid cid userText : String)
    (items : List StreamItem) (now : Nat) (hclean : cleanItems items) :
    ∃ ts, (runTurn cfg m0 tid cid userText items false false now).calls.getLast? =
      some (SlackCall.update ts (specAccumulatedText items "")
        (specFinalMetadata items none)) := by
  obtain ⟨s', calls, hrun, hacc, hmd, hts', herr⟩ :=
    runLoop_clean items initialTurnState hclean
  have hsome : s'.lastMessageTs.isSome := hts' (by simp [initialTurnState])
  obtain ⟨ts, hts⟩ := Option.isSome_iff_exists.mp hsome
  refine ⟨ts, ?_⟩
  have hacc' : s'.accumulated = specAccumulatedText items "" := hacc
  have hmd' : s'.finalMetadata = specFinalMetadata items none := hmd
  simp only [runTurn, hrun, hts, Bool.false_eq_true, if_false]
  rw [getLast?_concat_call, hacc', hmd']

theorem C3_final_flush_witness :
    (cleanItems [StreamItem.ev (AgentEvent.llm_chunk "Hel"),
                 StreamItem.ev (AgentEvent.llm_chunk "lo"),
                 StreamItem.ev (AgentEvent.final_message (some "Hello world") (some "gpt"))]) ∧
    (∃ ts, (runTurn (mkConfig 1000 50 24) [(keyTC, ⟨"t", "c", none, [msgS0], 0⟩)]
        "t" "c" "hi"
        [StreamItem.ev (AgentEvent.llm_chunk "Hel"),
         StreamItem.ev (AgentEvent.llm_chunk "lo"),
         StreamItem.ev (AgentEvent.final_message (some "Hello world") (some "gpt"))]
        false false 7).calls.getLast? =
      some (SlackCall.update ts
        (specAccumulatedText
          [StreamItem.ev (AgentEvent.llm_chunk "Hel"),
           StreamItem.ev (AgentEvent.llm_chunk "lo"),
           StreamItem.ev (AgentEvent.final_message (some "Hello world") (some "gpt"))] "")
        (specFinalMetadata
          [StreamItem.ev (AgentEvent.llm_chunk "Hel"),
           StreamItem.ev (AgentEvent.llm_chunk "lo"),
           StreamItem.ev (AgentEvent.final_message (some "Hello world") (some "gpt"))] none))) ∧
    (runTurn (mkConfig 1000 50 24) [(keyTC, ⟨"t", "c", none, [msgS0], 0⟩)]
        "t" "c" "hi"
        [StreamItem.ev (AgentEvent.llm_chunk "Hel"),
         StreamItem.ev (AgentEvent.llm_chunk "lo"),
         StreamItem.ev (AgentEvent.final_message (some "Hello world") (some "gpt"))]
        false false 7).calls =
      [SlackCall.postLoading 0 thinkingText,
       SlackCall.update 0 ("Hello world" ++ " ") none,
       SlackCall.update 0 "Hello world" (some "gpt")] :=
  ⟨by decide,
   C3_final_flush (mkConfig 1000 50 24) [(keyTC, ⟨"t", "c", none, [msgS0], 0⟩)]
     "t" "c" "hi" _ 7 (by decide),
   by decide⟩

end SlackSupabase

namespace SlackSupabase

/-- **C4, counterexample.**  The claim asserts that on every failed path
the context's message list is unchanged from before the turn.  But
`addUserMessageToThread` runs *before* the backend is invoked and is
never rolled back: after a turn whose stream immediately emits an error
event, no assistant message is committed, yet the context has gained the
user message — it differs from the pre-turn context. -/
theorem C4_counterexample :
    (runTurn (mkConfig 1000 50 24) [(keyTC, ⟨"t", "c", none, [msgS0], 0⟩)]
      "t" "c" "hi" [StreamItem.ev (AgentEvent.errorEv "boom")] false false 7).committed =
      none ∧
    (runTurn (mkConfig 1000 50 24) [(keyTC, ⟨"t", "c", none, [msgS0], 0⟩)]
      "t" "c" "hi" [StreamItem.ev (AgentEvent.errorEv "boom")] false false 7).ctxMap ≠
      [(keyTC, ⟨"t", "c", none, [msgS0], 0⟩)] := by
  constructor
  · decide
  · decide

/-- **C4 (amended).**  The assistant's message is appended to the
conversation context iff the terminal render of the turn completed
successfully (initial post succeeded, no terminal stream failure, final
update succeeded); the committed text is exactly the rendered final
accumulated text and the last call is that render.  On every failed path
no assistant message is committed, and the context equals the pre-turn
context with only the user message appended (the user message, added
before invoking the backend, is not rolled back; if even the initial
"Thinking..." post failed, the context is fully unchanged). -/
theorem C4_commit_iff (cfg : Config) (m0 : CtxMap) (tid cid userText : String)
    (items : List StreamItem) (fi ff : Bool) (now : Nat) :
    ((runTurn cfg m0 tid cid userText items fi ff now).committed.isSome ↔
      (fi = false ∧ ff = false ∧ cleanItems items)) ∧
    (fi = true → (runTurn cfg m0 tid cid userText items fi ff now).ctxMap = m0) ∧
    (fi = false → (runTurn cfg m0 tid cid userText items fi ff now).committed = none →
      (runTurn cfg m0 tid cid userText items fi ff now).ctxMap =
        addMessage cfg m0 tid cid (userMessage userText) now) ∧
    (∀ t, (runTurn cfg m0 tid cid userText items fi ff now).committed = some t →
      t = specAccumulatedText items "" ∧
      (runTurn cfg m0 tid cid userText items fi ff now).ctxMap =
        addMessage cfg (addMessage cfg m0 tid cid (userMessage userText) now)
          tid cid (assistantMessage t) now ∧
      ∃ ts md, (runTurn cfg m0 tid cid userText items fi ff now).calls.getLast? =
        some (SlackCall.update ts t md)) := by
  cases fi with
  | true =>
      refine ⟨?_, fun _ => rfl, fun h => absurd h (by simp), fun t ht => ?_⟩
      · constructor
        · intro h
          simp [runTurn] at h
        · rintro ⟨h, -⟩
          exact absurd h (by simp)
      · simp [runTurn] at ht
  | false =>
      by_cases hclean : cleanItems items
      · obtain ⟨s', calls, hrun, hacc, hmd, hts', herr⟩ :=
          runLoop_clean items initialTurnState hclean
        have hsome : s'.lastMessageTs.isSome := hts' (by simp [initialTurnState])
        obtain ⟨ts, hts⟩ := Option.isSome_iff_exists.mp hsome
        cases ff with
        | true =>
            have hred : runTurn cfg m0 tid cid userText items false true now =
                { calls := [SlackCall.postLoading 0 thinkingText] ++ calls ++
                    (if s'.updateScheduled then
                      [SlackCall.update ts (s'.accumulated ++ " ") none] else []) ++
                    [SlackCall.updateError 0 processErrorTitle processErrorBody
                      "update failed"]
                  ctxMap := addMessage cfg m0 tid cid (userMessage userText) now
                  committed := none } := by
              simp only [runTurn, hrun, hts, Bool.false_eq_true, if_false, if_true]
            refine ⟨?_, fun h => by simp at h, fun _ _ => by rw [hred], fun t ht => ?_⟩
            · constructor
              · intro h
                rw [hred] at h
                simp at h
              · rintro ⟨-, h, -⟩
                exact absurd h (by simp)
            · rw [hred] at ht
              simp at ht
        | false =>
            have hred : runTurn cfg m0 tid cid userText items false false now =
                { calls := [SlackCall.postLoading 0 thinkingText] ++ calls ++
                    (if s'.updateScheduled then
                      [SlackCall.update ts (s'.accumulated ++ " ") none] else []) ++
                    [SlackCall.update ts s'.accumulated s'.finalMetadata]
                  ctxMap := addMessage cfg
                    (addMessage cfg m0 tid cid (userMessage userText) now)
                    tid cid (assistantMessage s'.accumulated) now
                  committed := some s'.accumulated } := by
              simp only [runTurn, hrun, hts, Bool.false_eq_true, if_false]
            refine ⟨?_, fun h => by simp at h, fun _ h => ?_, fun t ht => ?_⟩
            · constructor
              · intro _
                exact ⟨rfl, rfl, hclean⟩
              · intro _
                rw [hred]
                simp
            · rw [hred] at h
              simp at h
            · rw [hred] at ht
              simp only [Option.some.injEq] at ht
              subst ht
              refine ⟨hacc, by rw [hred], ts, s'.finalMetadata, ?_⟩
              rw [hred]
              simp only []
              exact getLast?_concat_call _ _
      · rcases runLoop_not_clean items initialTurnState hclean with ⟨calls, hc⟩ | ⟨calls, hc⟩
        · have hred : runTurn cfg m0 tid cid userText items false ff now =
              { calls := [SlackCall.postLoading 0 thinkingText] ++ calls
                ctxMap := addMessage cfg m0 tid cid (userMessage userText) now
                committed := none } := by
            simp only [runTurn, hc, Bool.false_eq_true, if_false]
          refine ⟨?_, fun h => by simp at h, fun _ _ => by rw [hred], fun t ht => ?_⟩
          · constructor
            · intro h
              rw [hred] at h
              simp at h
            · rintro ⟨-, -, h⟩
              exact absurd h hclean
          · rw [hred] at ht
            simp at ht
        · have hred : runTurn cfg m0 tid cid userText items false ff now =
              { calls := [SlackCall.postLoading 0 thinkingText] ++ calls ++
                  [SlackCall.updateError 0 processErrorTitle processErrorBody "stream failed"]
                ctxMap := addMessage cfg m0 tid cid (userMessage userText) now
                committed := none } := by
            simp only [runTurn, hc, Bool.false_eq_true, if_false]
          refine ⟨?_, fun h => by simp at h, fun _ _ => by rw [hred], fun t ht => ?_⟩
          · constructor
            · intro h
              rw [hred] at h
              simp at h
            · rintro ⟨-, -, h⟩
              exact absurd h hclean
          · rw [hred] at ht
            simp at ht

end SlackSupabase

namespace SlackSupabase

theorem C4_commit_iff_witness :
    (runTurn (mkConfig 1000 50 24) [(keyTC, ⟨"t", "c", none, [msgS0], 0⟩)] "t" "c" "hi"
        [StreamItem.ev (AgentEvent.errorEv "boom")] false false 7).ctxMap =
      addMessage (mkConfig 1000 50 24) [(keyTC, ⟨"t", "c", none, [msgS0], 0⟩)]
        "t" "c" (userMessage "hi") 7 :=
  (C4_commit_iff (mkConfig 1000 50 24) [(keyTC, ⟨"t", "c", none, [msgS0], 0⟩)] "t" "c" "hi"
      [StreamItem.ev (AgentEvent.errorEv "boom")] false false 7).2.2.1 rfl (by decide)

/-- **C6.**  When an error event is received from the stream (after any
clean prefix), the event loop terminates immediately — the turn's result
does not depend on any later events — and exactly one error render is
produced: an edit (`updateMessage` with the error payload) of the
currently active message, which is also the turn's last Slack call.  (A
message is always active at that point, since the "Thinking..."
placeholder was posted before the stream started; the fresh-error-message
arm is reserved for failures before that post.) -/
theorem C6_error_event (cfg : Config) (m0 : CtxMap) (tid cid userText : String)
    (pre post : List StreamItem) (d : String) (ff : Bool) (now : Nat)
    (hclean : cleanItems pre) :
    runTurn cfg m0 tid cid userText (pre ++ StreamItem.ev (AgentEvent.errorEv d) :: post)
        false ff now =
      runTurn cfg m0 tid cid userText (pre ++ [StreamItem.ev (AgentEvent.errorEv d)])
        false ff now ∧
    ∃ ts,
      (runTurn cfg m0 tid cid userText (pre ++ StreamItem.ev (AgentEvent.errorEv d) :: post)
          false ff now).calls.getLast? =
        some (SlackCall.updateError ts agentErrorTitle agentErrorBody d) ∧
      ((runTurn cfg m0 tid cid userText (pre ++ StreamItem.ev (AgentEvent.errorEv d) :: post)
          false ff now).calls.filter isErrorRender).length = 1 := by
  obtain ⟨s', calls, hfin, happ⟩ := runLoop_append_clean pre initialTurnState hclean
  obtain ⟨s'', calls'', hrun'', hacc, hmd, hts', herr⟩ :=
    runLoop_clean pre initialTurnState hclean
  rw [hfin] at hrun''
  injection hrun'' with hs hc
  subst hs
  subst hc
  have hsome : s'.lastMessageTs.isSome := hts' (by simp [initialTurnState])
  obtain ⟨ts, hts⟩ := Option.isSome_iff_exists.mp hsome
  have herrstep : ∀ rest, runLoop (StreamItem.ev (AgentEvent.errorEv d) :: rest) s' =
      LoopOutcome.returned [SlackCall.updateError ts agentErrorTitle agentErrorBody d] := by
    intro rest
    simp only [runLoop, hts]
  have hrun1 : runLoop (pre ++ StreamItem.ev (AgentEvent.errorEv d) :: post)
      initialTurnState =
      LoopOutcome.returned
        (calls ++ [SlackCall.updateError ts agentErrorTitle agentErrorBody d]) := by
    rw [happ (StreamItem.ev (AgentEvent.errorEv d) :: post), herrstep post]
    rfl
  have hrun2 : runLoop (pre ++ [StreamItem.ev (AgentEvent.errorEv d)]) initialTurnState =
      LoopOutcome.returned
        (calls ++ [SlackCall.updateError ts agentErrorTitle agentErrorBody d]) := by
    rw [happ [StreamItem.ev (AgentEvent.errorEv d)], herrstep []]
    rfl
  have hredEq : ∀ items', runLoop items' initialTurnState =
      LoopOutcome.returned
        (calls ++ [SlackCall.updateError ts agentErrorTitle agentErrorBody d]) →
      runTurn cfg m0 tid cid userText items' false ff now =
      { calls := [SlackCall.postLoading 0 thinkingText] ++
          (calls ++ [SlackCall.updateError ts agentErrorTitle agentErrorBody d])
        ctxMap := addMessage cfg m0 tid cid (userMessage userText) now
        committed := none } := by
    intro items' hrn
    simp only [runTurn, hrn, Bool.false_eq_true, if_false]
  refine ⟨?_, ts, ?_, ?_⟩
  · rw [hredEq _ hrun1, hredEq _ hrun2]
  · rw [hredEq _ hrun1]
    simp only [List.cons_append, List.nil_append]
    rw [← List.cons_append]
    exact getLast?_concat_call _ _
  · have h1 : List.filter isErrorRender calls = [] :=
      List.filter_eq_nil_iff.mpr (fun c hc => by simp [herr c hc])
    rw [hredEq _ hrun1]
    simp [List.filter_append, h1, isErrorRender]

theorem C6_error_event_witness :
    (cleanItems [StreamItem.ev (AgentEvent.llm_chunk "He")]) ∧
    (runTurn (mkConfig 1000 50 24) [(keyTC, ⟨"t", "c", none, [msgS0], 0⟩)] "t" "c" "hi"
        ([StreamItem.ev (AgentEvent.llm_chunk "He")] ++
          StreamItem.ev (AgentEvent.errorEv "boom") ::
            [StreamItem.ev (AgentEvent.llm_chunk "ignored")]) false false 7 =
      runTurn (mkConfig 1000 50 24) [(keyTC, ⟨"t", "c", none, [msgS0], 0⟩)] "t" "c" "hi"
        ([StreamItem.ev (AgentEvent.llm_chunk "He")] ++
          [StreamItem.ev (AgentEvent.errorEv "boom")]) false false 7) ∧
    ∃ ts,
      (runTurn (mkConfig 1000 50 24) [(keyTC, ⟨"t", "c", none, [msgS0], 0⟩)] "t" "c" "hi"
          ([StreamItem.ev (AgentEvent.llm_chunk "He")] ++
            StreamItem.ev (AgentEvent.errorEv "boom") ::
              [StreamItem.ev (AgentEvent.llm_chunk "ignored")]) false false 7).calls.getLast? =
        some (SlackCall.updateError ts agentErrorTitle agentErrorBody "boom") ∧
      ((runTurn (mkConfig 1000 50 24) [(keyTC, ⟨"t", "c", none, [msgS0], 0⟩)] "t" "c" "hi"
          ([StreamItem.ev (AgentEvent.llm_chunk "He")] ++
            StreamItem.ev (AgentEvent.errorEv "boom") ::
              [StreamItem.ev (AgentEvent.llm_chunk "ignored")]) false false 7).calls.filter
          isErrorRender).length = 1 :=
  ⟨by decide,
   C6_error_event (mkConfig 1000 50 24) [(keyTC, ⟨"t", "c", none, [msgS0], 0⟩)] "t" "c" "hi"
     [StreamItem.ev (AgentEvent.llm_chunk "He")]
     [StreamItem.ev (AgentEvent.llm_chunk "ignored")] "boom" false 7 (by decide)⟩

/-- **C8.**  When a `tool_calls` event with a nonempty tool list arrives
during streaming, the aggregator first flushes the currently accumulated
text as a final edit (no trailing throttle marker) to the active message,
then posts a new Slack interstitial message, switches the active message
handle to the new message, and resets the accumulated text to the empty
string — all before any subsequent event is processed. -/
theorem C8_tool_interstitial (s : TurnState) (ts : Nat) (names : List String)
    (n : String) (ns : List String) (rest : List StreamItem)
    (hts : s.lastMessageTs = some ts) (hn : names = n :: ns) :
    runLoop (StreamItem.ev (AgentEvent.tool_calls names) :: rest) s =
      (runLoop rest
        { s with lastMessageTs := some s.nextTs, accumulated := ""
                 nextTs := s.nextTs + 1 }).prepend
        [SlackCall.update ts s.accumulated none,
         SlackCall.postLoading s.nextTs (toolThinkingText n)] := by
  subst hn
  simp only [runLoop, hts]
  rfl

theorem C8_tool_interstitial_witness :
    runLoop (StreamItem.ev (AgentEvent.tool_calls ["list_projects"]) :: [])
        ⟨some 0, "partial answer", none, false, 1⟩ =
      (runLoop ([] : List StreamItem)
        ⟨some 1, "", none, false, 2⟩).prepend
        [SlackCall.update 0 "partial answer" none,
         SlackCall.postLoading 1 (toolThinkingText "list_projects")] :=
  C8_tool_interstitial ⟨some 0, "partial answer", none, false, 1⟩ 0 ["list_projects"]
    "list_projects" [] [] rfl rfl

end SlackSupabase

namespace SlackSupabase

/-! ### Claim C5: throttled update scheduling (timed model)

`scheduleUpdate` sets `updateScheduled` and arms a 750 ms timer
(`UPDATE_INTERVAL_MS`); the flag is cleared in the callback's `finally`,
only after the awaited `updateMessage` resolves — strictly after the
timer fires.  `throttleFires` is the timed model of a burst of
`content-delta` arrivals (in ms, sorted): the second argument is the fire
time of the currently scheduled update, if any.  A delta arriving at
`t ≤ b` while an update is scheduled (or its callback is still
completing) is absorbed into that flush; otherwise a new update is
scheduled, firing 750 ms later.  The returned list holds the fire times
of the throttled `updateMessage` calls. -/
def throttleFires : List Nat → Option Nat → List Nat
  | [], _ => []
  | t :: rest, none => (t + 750) :: throttleFires rest (some (t + 750))
  | t :: rest, some b =>
      if t ≤ b then throttleFires rest (some b)
      else (t + 750) :: throttleFires rest (some (t + 750))

theorem throttleFires_bound :
    ∀ (l : List Nat) (b hi : Nat), (∀ t ∈ l, t ≤ hi) →
      1 ≤ (throttleFires l (some b)).length →
      b + 1 + ((throttleFires l (some b)).length - 1) * 751 ≤ hi := by
  intro l
  induction l with
  | nil =>
      intro b hi _ hk
      simp [throttleFires] at hk
  | cons t rest ih =>
      intro b hi hbound hk
      by_cases hle : t ≤ b
      · simp only [throttleFires, if_pos hle] at hk ⊢
        exact ih b hi (fun x hx => hbound x (List.mem_cons_of_mem _ hx)) hk
      · simp only [throttleFires, if_neg hle, List.length_cons]
        have hthi : t ≤ hi := hbound t (List.mem_cons_self _ _)
        have hbt : b < t := Nat.not_le.mp hle
        rcases Nat.eq_zero_or_pos (throttleFires rest (some (t + 750))).length with h0 | hpos
        · rw [h0]
          omega
        · have := ih (t + 750) hi (fun x hx => hbound x (List.mem_cons_of_mem _ hx)) hpos
          omega

theorem throttleFires_gap :
    ∀ (l : List Nat) (b : Nat),
      (∀ f ∈ throttleFires l (some b), b + 750 < f) ∧
      List.Chain' (fun f g => f + 750 < g) (throttleFires l (some b)) := by
  intro l
  induction l with
  | nil =>
      intro b
      constructor
      · intro f hf
        simp [throttleFires] at hf
      · simp [throttleFires]
  | cons t rest ih =>
      intro b
      by_cases hle : t ≤ b
      · obtain ⟨h1, h2⟩ := ih b
        constructor
        · intro f hf
          simp only [throttleFires, if_pos hle] at hf
          exact h1 f hf
        · simp only [throttleFires, if_pos hle]
          exact h2
      · obtain ⟨h1, h2⟩ := ih (t + 750)
        have hbt : b < t := Nat.not_le.mp hle
        constructor
        · intro f hf
          simp only [throttleFires, if_neg hle, List.mem_cons] at hf
          rcases hf with rfl | hf
          · omega
          · have := h1 f hf
            omega
        · simp only [throttleFires, if_neg hle]
          refine List.chain'_cons'.mpr ⟨?_, h2⟩
          intro g hg
          have := h1 g (List.mem_of_mem_head? hg)
          omega

/-- **C5, counterexample.**  The claim asserts that a burst of N
`content-delta` events over a duration D causes at most
`ceil(D / 750ms) + 1` `updateMessage` calls (the `+1` being the
guaranteed final flush).  An instantaneous burst of 3 deltas (D = 0)
schedules exactly one throttled flush (firing at 750 ms), which together
with the final flush makes 2 calls, exceeding `ceil(0/750) + 1 = 1`. -/
theorem C5_counterexample :
    (throttleFires [0, 0, 0] none).length + 1 = 2 ∧
    ¬ ((throttleFires [0, 0, 0] none).length + 1 ≤ (0 + 749) / 750 + 1) := by
  constructor
  · decide
  · decide

/-- **C5 (amended).**  Content-delta events never cause more than one
scheduled Slack update to exist at a time: a delta arriving while an
update is scheduled is absorbed into that flush (definitional third
conjunct), and consecutive throttled flushes are more than 750 ms apart
(second conjunct), so their scheduling windows never overlap.
Consequently a burst of deltas spanning a *positive* duration `D ≥ 1` ms
causes at most `ceil(D/750) + 1` `updateMessage` calls including the
final flush (`(D + 749) / 750` is `ceil(D/750)`); for an instantaneous
burst (D = 0) the count is 2 instead of the claimed 1. -/
theorem C5_throttle_bound (t0 : Nat) (rest : List Nat) (D : Nat) (hD : 1 ≤ D)
    (_hchain : List.Chain' (· ≤ ·) (t0 :: rest))
    (hspan : ∀ t ∈ t0 :: rest, t ≤ t0 + D) :
    (throttleFires (t0 :: rest) none).length + 1 ≤ (D + 749) / 750 + 1 ∧
    List.Chain' (fun f g => f + 750 < g) (throttleFires (t0 :: rest) none) ∧
    (∀ (t : Nat) (l : List Nat) (b : Nat), t ≤ b →
      throttleFires (t :: l) (some b) = throttleFires l (some b)) := by
  have hfe : throttleFires (t0 :: rest) none =
      (t0 + 750) :: throttleFires rest (some (t0 + 750)) := rfl
  refine ⟨?_, ?_, ?_⟩
  · rw [hfe]
    simp only [List.length_cons]
    rcases Nat.eq_zero_or_pos (throttleFires rest (some (t0 + 750))).length with h0 | hpos
    · rw [h0]
      have h1 : 1 ≤ (D + 749) / 750 := by
        rw [Nat.le_div_iff_mul_le (by norm_num)]
        omega
      omega
    · have hb := throttleFires_bound rest (t0 + 750) (t0 + D)
        (fun x hx => hspan x (List.mem_cons_of_mem _ hx)) hpos
      have h1 : (throttleFires rest (some (t0 + 750))).length + 1 ≤ (D + 749) / 750 := by
        rw [Nat.le_div_iff_mul_le (by norm_num)]
        omega
      omega
  · rw [hfe]
    obtain ⟨h1, h2⟩ := throttleFires_gap rest (t0 + 750)
    refine List.chain'_cons'.mpr ⟨?_, h2⟩
    intro g hg
    have := h1 g (List.mem_of_mem_head? hg)
    omega
  · intro t l b hle
    simp [throttleFires, if_pos hle]

theorem C5_throttle_bound_witness :
    ((1 : Nat) ≤ 900) ∧
    List.Chain' (· ≤ ·) [0, 100, 900] ∧
    (∀ t ∈ [0, 100, 900], t ≤ 0 + 900) ∧
    ((throttleFires [0, 100, 900] none).length + 1 ≤ (900 + 749) / 750 + 1 ∧
      List.Chain' (fun f g => f + 750 < g) (throttleFires [0, 100, 900] none) ∧
      (∀ (t : Nat) (l : List Nat) (b : Nat), t ≤ b →
        throttleFires (t :: l) (some b) = throttleFires l (some b))) ∧
    throttleFires [0, 100, 900] none = [750, 1650] :=
  ⟨by decide, by norm_num [List.chain'_cons], by decide,
   C5_throttle_bound 0 [100, 900] 900 (by decide) (by norm_num [List.chain'_cons])
     (by decide),
   by decide⟩

end SlackSupabase
